import Mathlib

set_option maxHeartbeats 1000000

/-
Verification development for the libfilezilla AIO pipeline and its peripheral
IPv6 canonicalizer.  All machine integers of the source (uint64_t, size_t) are
modelled as Nat together with explicit reductions modulo 2^64 at the places
where the source's unsigned arithmetic can wrap.  Strings and byte buffers are
modelled as lists of Nat (character code points / byte values).
-/

/-- Modulus of the 64-bit unsigned integers used throughout the source. -/
def u64 : Nat := 2 ^ 64

/-- Value of aio_base::nosize, i.e. static_cast of -1 to uint64_t. -/
def nosize : Nat := 2 ^ 64 - 1

/-- Result type aio_result of the AIO layer. -/
inductive aio_result where
  | ok
  | wait
  | error
deriving DecidableEq

/-! ## Buffer budget stored by the reader/writer base constructors -/

/-- Member initializer of reader_base: max_buffers_(max_buffers ? max_buffers : 1). -/
def reader_base_max_buffers (max_buffers : Nat) : Nat :=
  if max_buffers ≠ 0 then max_buffers else 1

/-- Member initializer of writer_base: max_buffers_(max_buffers ? max_buffers : 1). -/
def writer_base_max_buffers (max_buffers : Nat) : Nat :=
  if max_buffers ≠ 0 then max_buffers else 1

/-! ## Buffer pool layout (aio_buffer_pool constructor) -/

/-- Default buffer size picked by the pool constructor when buffer_size is 0. -/
def default_buffer_size : Nat := 256 * 1024

/-- Layout data computed by the aio_buffer_pool constructor: the total size of
the backing mapping, and the free-list of buffers as pairs of (byte offset of
the buffer base from the mapping base, declared capacity). -/
structure pool_layout where
  memory_size_ : Nat
  buffers_ : List (Nat × Nat)
deriving DecidableEq

/-- Effective buffer size of the pool constructor: a zero buffer_size is
replaced by the 256 KiB default before any layout arithmetic. -/
def effective_buffer_size (buffer_size : Nat) : Nat :=
  if buffer_size = 0 then default_buffer_size else buffer_size

/-- Layout computation of the aio_buffer_pool constructor for page size psz:
substitute the default for a zero buffer_size, round the size up to a page
multiple, lay out one leading guard page and then for each buffer its rounded
region followed by a guard page.  Each free-list entry keeps the un-rounded
buffer_size as its capacity.  All layout arithmetic is size_t arithmetic on a
64-bit target and so wraps modulo 2^64: the rounding addition, the
memory_size_ formula and the pointer increments that produce the buffer
offsets each reduce modulo u64. -/
def aio_buffer_pool_layout (buffer_count buffer_size psz : Nat) : pool_layout :=
  let bsize := effective_buffer_size buffer_size
  let adjusted := if bsize % psz = 0 then bsize else (bsize + (psz - bsize % psz)) % u64
  { memory_size_ := ((adjusted + psz) * buffer_count + psz) % u64
    buffers_ := (List.range buffer_count).map
      (fun i => ((psz + i * (adjusted + psz)) % u64, bsize)) }

/-- Unbounded rounding of n up to a multiple of p: the round_up(buffer_size,
page_size) in the claim's mapping-length formula, stated without any wrap. -/
def round_up_page (n p : Nat) : Nat :=
  if n % p = 0 then n else n + (p - n % p)

/-! ## Factory holders -/

/-- Copy assignment of reader_factory_holder: clones only when the source holds
a factory, otherwise it leaves the destination untouched.  A factory value is
abstracted to its identity; clone is the identity on it. -/
def reader_factory_holder_copy_assign (dst src : Option Nat) : Option Nat :=
  match src with
  | some f => some f
  | none => dst

/-- Move assignment of reader_factory_holder: transfers the source pointer and
resets the source. -/
def reader_factory_holder_move_assign (dst src : Option Nat) :
    Option Nat × Option Nat :=
  (src, none)

/-- Copy assignment of writer_factory_holder, same body as the reader variant. -/
def writer_factory_holder_copy_assign (dst src : Option Nat) : Option Nat :=
  match src with
  | some f => some f
  | none => dst

/-- Move assignment of writer_factory_holder. -/
def writer_factory_holder_move_assign (dst src : Option Nat) :
    Option Nat × Option Nat :=
  (src, none)

/-! ## file_writer close, finalize, set_mtime -/

/-- State of a file_writer relevant to do_close, do_finalize and set_mtime.
finalizing_ is the uint8_t member (0 streaming, 1 finalize requested, 2 fully
finalized); position is the value of file_.position(); buffers_ is the length
of the queued-lease list. -/
structure file_writer_state where
  error_ : Bool
  finalizing_ : Nat
  buffers_ : Nat
  fsync_ : Bool
  preallocated_ : Bool
  file_open : Bool
  position : Nat
deriving DecidableEq

/-- Externally visible effect of file_writer::do_close on the file: whether the
file was removed and whether it was truncated before closing. -/
structure close_effect where
  removed : Bool
  truncated : Bool
deriving DecidableEq

/-- Embedding of file_writer::do_close (after the worker has been joined): a
freshly created file to which nothing was written (position 0) and that is not
finalizing is removed; otherwise a preallocated file is truncated at the
current position before closing. -/
def file_writer_do_close (s : file_writer_state) : close_effect :=
  if s.file_open then
    if s.finalizing_ = 0 ∧ s.position = 0 then
      { removed := true, truncated := false }
    else if s.preallocated_ then
      { removed := false, truncated := true }
    else
      { removed := false, truncated := false }
  else
    { removed := false, truncated := false }

/-- Embedding of file_writer::continue_finalize.  Returns the aio_result, the
updated state and whether the worker condition was signalled.  Note the ok
path does not modify finalizing_. -/
def file_writer_continue_finalize (s : file_writer_state) :
    aio_result × file_writer_state × Bool :=
  if ¬ s.file_open then
    (aio_result.error, { s with error_ := true }, false)
  else
    let wake := s.fsync_ ∧ s.buffers_ = 0
    if s.buffers_ ≠ 0 ∨ s.fsync_ then (aio_result.wait, s, wake)
    else (aio_result.ok, s, wake)

/-- Embedding of threaded_writer::do_finalize as specialized by file_writer:
error and already-fully-finalized short circuits, then finalizing_ is set to 1
and continue_finalize decides the result. -/
def file_writer_do_finalize (s : file_writer_state) :
    aio_result × file_writer_state × Bool :=
  if s.error_ then (aio_result.error, s, false)
  else if s.finalizing_ = 2 then (aio_result.ok, s, false)
  else file_writer_continue_finalize { s with finalizing_ := 1 }

/-- Embedding of the finalize branch of the file_writer worker loop (entry):
when the queue is empty and finalizing_ is 1 the worker sets finalizing_ to 2
and, if fsync was requested, syncs the file; a failed sync latches error_.
fsync_ok is the outcome of the blocking fsync system call. -/
def file_writer_worker_finalize_step (fsync_ok : Bool) (s : file_writer_state) :
    file_writer_state :=
  if s.buffers_ = 0 ∧ s.finalizing_ = 1 then
    { s with finalizing_ := 2,
             error_ := s.error_ || (s.fsync_ && !fsync_ok) }
  else s

/-- Embedding of file_writer::set_mtime.  os_ok is the outcome of the
set_modification_time system call for the given (valid) timestamp. -/
def file_writer_set_mtime (os_ok : Bool) (s : file_writer_state) : Bool :=
  if s.error_ ∨ s.finalizing_ ≠ 2 ∨ ¬ s.file_open then false else os_ok

/-! ## Error latching: threaded_reader::do_get_buffer and writer_base::add_buffer -/

/-- Queue state of a threaded reader as used by do_get_buffer.  Queued leases
are abstracted to the byte lists they carry. -/
structure threaded_reader_state where
  buffers_ : List (List Nat)
  max_buffers_ : Nat
  error_ : Bool
  eof_ : Bool
  get_buffer_called_ : Bool
deriving DecidableEq

/-- Embedding of threaded_reader::do_get_buffer.  Returns the aio_result, the
dequeued lease if any, the updated state, and whether the worker was woken
because the queue was full before the removal. -/
def threaded_reader_do_get_buffer (s : threaded_reader_state) :
    aio_result × Option (List Nat) × threaded_reader_state × Bool :=
  match h : s.buffers_ with
  | [] =>
    if s.error_ then (aio_result.error, none, s, false)
    else if s.eof_ then (aio_result.ok, none, s, false)
    else (aio_result.wait, none, s, false)
  | b :: rest =>
    let w := s.buffers_.length = s.max_buffers_
    (aio_result.ok, some b,
      { s with buffers_ := rest, get_buffer_called_ := true }, decide w)

/-- Queue state of a threaded writer as used by add_buffer. -/
structure threaded_writer_state where
  buffers_ : List (List Nat)
  max_buffers_ : Nat
  error_ : Bool
deriving DecidableEq

/-- Embedding of threaded_writer::do_add_buffer: enqueue, wake the worker on
the empty-to-nonempty transition, report wait when the queue has reached
max_buffers_. -/
def threaded_writer_do_add_buffer (s : threaded_writer_state) (b : List Nat) :
    aio_result × threaded_writer_state × Bool :=
  let s2 := { s with buffers_ := s.buffers_ ++ [b] }
  let wake := s2.buffers_.length = 1
  if s2.buffers_.length ≥ s.max_buffers_ then (aio_result.wait, s2, decide wake)
  else (aio_result.ok, s2, decide wake)

/-- Embedding of writer_base::add_buffer (threaded writer case): a latched
error is reported first, an empty lease (none) or a lease holding an empty
buffer is a no-op returning ok, otherwise do_add_buffer runs. -/
def writer_base_add_buffer (s : threaded_writer_state) (b : Option (List Nat)) :
    aio_result × threaded_writer_state × Bool :=
  if s.error_ then (aio_result.error, s, false)
  else
    match b with
    | none => (aio_result.ok, s, false)
    | some bytes =>
      if bytes.length = 0 then (aio_result.ok, s, false)
      else threaded_writer_do_add_buffer s bytes

/-! ## Theorems for claims C10, C7, C8, C5, C4, C3 -/

/-- C10: reader_base and writer_base constructed with max_buffers = 0 store a
buffer budget of 1, and for every argument the stored budget is at least 1, so
queue-full comparisons are always against a count of at least one buffer. -/
theorem C10_max_buffers :
    reader_base_max_buffers 0 = 1 ∧ writer_base_max_buffers 0 = 1 ∧
    ∀ m : Nat, 1 ≤ reader_base_max_buffers m ∧ 1 ≤ writer_base_max_buffers m := by
  refine ⟨rfl, rfl, fun m => ?_⟩
  unfold reader_base_max_buffers writer_base_max_buffers
  by_cases h : m ≠ 0 <;> simp [h] <;> omega

/-- C7 counterexample: the layout arithmetic is size_t arithmetic and wraps
modulo 2^64, so with one buffer of size 2^64 - 4096 and 4096-byte pages the
constructor stores memory_size_ = 4096, not the un-wrapped value 2^64 + 4096
of the claim's formula (round_up(buffer_size, page) + page) * count + page. -/
theorem C7_counterexample :
    (aio_buffer_pool_layout 1 (2 ^ 64 - 4096) 4096).memory_size_ = 4096 ∧
    (round_up_page (effective_buffer_size (2 ^ 64 - 4096)) 4096 + 4096) * 1 + 4096 =
      2 ^ 64 + 4096 ∧
    (aio_buffer_pool_layout 1 (2 ^ 64 - 4096) 4096).memory_size_ ≠
      (round_up_page (effective_buffer_size (2 ^ 64 - 4096)) 4096 + 4096) * 1 + 4096 := by
  refine ⟨by decide, by decide, by decide⟩

/-- C7 (amended): for buffer_count ≥ 1, a positive page size and size_t-ranged
inputs, round_up_page is the least page multiple not below the effective
buffer size (0 means the 256 KiB default); the stored mapping length and the
buffer offsets equal the claimed formulas (round_up + page) * buffer_count +
page and page + i * (round_up + page) reduced modulo 2^64; the free-list holds
exactly buffer_count buffers, each with the un-rounded effective buffer_size
as capacity; and whenever the mapping-length formula does not overflow size_t,
it is the exact mapping length and each buffer is placed at a page-aligned
position that avoids the guard pages. -/
theorem C7_pool_layout (buffer_count buffer_size psz : Nat)
    (hcount : 1 ≤ buffer_count) (hpsz : 0 < psz)
    (hsz : buffer_size < u64) (hpu : psz < u64) :
    psz ∣ round_up_page (effective_buffer_size buffer_size) psz ∧
    effective_buffer_size buffer_size ≤
      round_up_page (effective_buffer_size buffer_size) psz ∧
    round_up_page (effective_buffer_size buffer_size) psz <
      effective_buffer_size buffer_size + psz ∧
    (aio_buffer_pool_layout buffer_count buffer_size psz).memory_size_ =
      ((round_up_page (effective_buffer_size buffer_size) psz + psz) * buffer_count
        + psz) % u64 ∧
    (aio_buffer_pool_layout buffer_count buffer_size psz).buffers_.length =
      buffer_count ∧
    (∀ i, i < buffer_count →
      (aio_buffer_pool_layout buffer_count buffer_size psz).buffers_.getD i (0, 0) =
        ((psz + i * (round_up_page (effective_buffer_size buffer_size) psz + psz)) % u64,
          effective_buffer_size buffer_size)) ∧
    ((round_up_page (effective_buffer_size buffer_size) psz + psz) * buffer_count
        + psz < u64 →
      (aio_buffer_pool_layout buffer_count buffer_size psz).memory_size_ =
        (round_up_page (effective_buffer_size buffer_size) psz + psz) * buffer_count
          + psz ∧
      ∀ i, i < buffer_count →
        (aio_buffer_pool_layout buffer_count buffer_size psz).buffers_.getD i (0, 0) =
          (psz + i * (round_up_page (effective_buffer_size buffer_size) psz + psz),
            effective_buffer_size buffer_size) ∧
        psz ∣ (psz + i * (round_up_page (effective_buffer_size buffer_size) psz + psz)) ∧
        psz ≤ psz + i * (round_up_page (effective_buffer_size buffer_size) psz + psz) ∧
        psz + i * (round_up_page (effective_buffer_size buffer_size) psz + psz) +
            round_up_page (effective_buffer_size buffer_size) psz + psz ≤
          (aio_buffer_pool_layout buffer_count buffer_size psz).memory_size_) := by
  set bsize := effective_buffer_size buffer_size with hbsize
  set ru := round_up_page bsize psz with hruDef
  set L := aio_buffer_pool_layout buffer_count buffer_size psz with hLdef
  set adj := if bsize % psz = 0 then bsize else (bsize + (psz - bsize % psz)) % u64
    with hadj
  have hdm := Nat.div_add_mod bsize psz
  have hmlt := Nat.mod_lt bsize hpsz
  have hdvd : psz ∣ ru := by
    rw [hruDef]; unfold round_up_page
    by_cases h : bsize % psz = 0
    · simpa [h] using Nat.dvd_of_mod_eq_zero h
    · simp only [h, if_false]
      refine ⟨bsize / psz + 1, ?_⟩
      have hexp : psz * (bsize / psz + 1) = psz * (bsize / psz) + psz := by ring
      omega
  have hle : bsize ≤ ru := by
    rw [hruDef]; unfold round_up_page
    by_cases h : bsize % psz = 0 <;> simp [h]
  have hlt : ru < bsize + psz := by
    rw [hruDef]; unfold round_up_page
    by_cases h : bsize % psz = 0 <;> simp [h] <;> omega
  have hcong : adj % u64 = ru % u64 := by
    rw [hadj, hruDef]; unfold round_up_page
    by_cases h : bsize % psz = 0
    · rw [if_pos h, if_pos h]
    · rw [if_neg h, if_neg h]
      exact Nat.mod_mod_of_dvd _ (dvd_refl u64)
  have hmod : Nat.ModEq u64 adj ru := hcong
  have hmem : L.memory_size_ = ((adj + psz) * buffer_count + psz) % u64 := rfl
  have hbuf : L.buffers_ =
      (List.range buffer_count).map (fun i => ((psz + i * (adj + psz)) % u64, bsize)) :=
    rfl
  have hmemg : L.memory_size_ = ((ru + psz) * buffer_count + psz) % u64 := by
    rw [hmem]
    exact ((hmod.add_right psz).mul_right buffer_count).add_right psz
  have hoffg : ∀ i : Nat, (psz + i * (adj + psz)) % u64 = (psz + i * (ru + psz)) % u64 :=
    fun i => ((hmod.add_right psz).mul_left i).add_left psz
  have hgetg : ∀ i, i < buffer_count →
      L.buffers_.getD i (0, 0) = ((psz + i * (ru + psz)) % u64, bsize) := by
    intro i hi
    rw [hbuf]
    simp only [List.getD_eq_getElem?_getD, List.getElem?_map, List.getElem?_range hi,
      Option.map_some', Option.getD_some]
    rw [hoffg i]
  refine ⟨hdvd, hle, hlt, hmemg, by rw [hbuf]; simp, hgetg, ?_⟩
  intro hno
  have hstep : ru + psz ≤ (ru + psz) * buffer_count :=
    Nat.le_mul_of_pos_right _ hcount
  have hru_lt : ru < u64 := by omega
  have hadjru : adj = ru := by
    by_cases h : bsize % psz = 0
    · rw [hadj, if_pos h, hruDef]; unfold round_up_page; rw [if_pos h]
    · have hrueq : ru = bsize + (psz - bsize % psz) := by
        rw [hruDef]; unfold round_up_page; rw [if_neg h]
      rw [hadj, if_neg h, ← hrueq]
      exact Nat.mod_eq_of_lt hru_lt
  have hmem_exact : L.memory_size_ = (ru + psz) * buffer_count + psz := by
    rw [hmemg]
    exact Nat.mod_eq_of_lt hno
  refine ⟨hmem_exact, ?_⟩
  intro i hi
  have h2 : (i + 1) * (ru + psz) ≤ buffer_count * (ru + psz) :=
    Nat.mul_le_mul_right _ hi
  have harith : (i + 1) * (ru + psz) = i * (ru + psz) + (ru + psz) := by ring
  have hcomm : (ru + psz) * buffer_count = buffer_count * (ru + psz) := by ring
  have hoff_lt : psz + i * (ru + psz) < u64 := by omega
  have hget_exact : L.buffers_.getD i (0, 0) = (psz + i * (ru + psz), bsize) := by
    rw [hgetg i hi, Nat.mod_eq_of_lt hoff_lt]
  refine ⟨hget_exact, ?_, by omega, ?_⟩
  · exact (dvd_refl psz).add (Dvd.dvd.mul_left (hdvd.add (dvd_refl psz)) i)
  · rw [hmem_exact]
    omega

/-- C8 counterexample: copy assignment from a moved-from (empty) holder does
not null the destination; a destination holding a factory keeps it. -/
theorem C8_counterexample :
    reader_factory_holder_copy_assign (some 7) none = some 7 ∧
    some 7 ≠ (none : Option Nat) := by
  exact ⟨rfl, by decide⟩

/-- C8 amended: move assignment from an empty holder empties both holders, and
copy assignment from an empty holder leaves the destination unchanged (so it
yields a null holder only when the destination was already null); this holds
for reader and writer factory holders alike. -/
theorem C8_holder_assign :
    ∀ dst : Option Nat,
      reader_factory_holder_move_assign dst none = (none, none) ∧
      reader_factory_holder_copy_assign dst none = dst ∧
      writer_factory_holder_move_assign dst none = (none, none) ∧
      writer_factory_holder_copy_assign dst none = dst := by
  intro dst
  exact ⟨rfl, rfl, rfl, rfl⟩

/-- C5 counterexample: a file_writer opened at offset 100 (file position 100)
that received no data and was not finalized is NOT removed on close, contrary
to the claim that every such writer deletes its file. -/
theorem C5_counterexample :
    (file_writer_do_close
      { error_ := false, finalizing_ := 0, buffers_ := 0, fsync_ := false,
        preallocated_ := false, file_open := true, position := 100 }).removed
      = false := by
  rfl

/-- C5 amended: on close of a file_writer with an open file, the file is
removed exactly when finalize was never requested and the file position is
zero (which for a writer opened at offset 0 means no data was ever written; a
writer opened at a nonzero offset starts with a nonzero position and is never
removed); if it is not removed, it is truncated at the current position
exactly when it was preallocated. -/
theorem C5_close_semantics (s : file_writer_state) (h : s.file_open = true) :
    ((file_writer_do_close s).removed = true ↔ (s.finalizing_ = 0 ∧ s.position = 0)) ∧
    ((file_writer_do_close s).truncated = true ↔
      (¬ (s.finalizing_ = 0 ∧ s.position = 0) ∧ s.preallocated_ = true)) := by
  unfold file_writer_do_close
  rw [h]
  by_cases h1 : s.finalizing_ = 0 ∧ s.position = 0
  · simp [h1]
  · by_cases h2 : s.preallocated_ = true <;> simp [h1, h2]

/-- C5 witness: a fresh zero-position writer is removed, and a preallocated
writer at position 5 is truncated rather than removed. -/
theorem C5_close_semantics_witness :
    (file_writer_do_close
      { error_ := false, finalizing_ := 0, buffers_ := 0, fsync_ := false,
        preallocated_ := false, file_open := true, position := 0 }).removed = true ∧
    (file_writer_do_close
      { error_ := false, finalizing_ := 0, buffers_ := 0, fsync_ := false,
        preallocated_ := true, file_open := true, position := 5 }).truncated = true := by
  constructor
  · exact (C5_close_semantics _ rfl).1.mpr (by exact ⟨rfl, rfl⟩)
  · exact (C5_close_semantics _ rfl).2.mpr (by constructor <;> simp)

/-- C4 code defect: for a non-fsync file_writer with an empty queue, finalize
returns ok on its first call but leaves finalizing_ at 1 (continue_finalize
never sets 2 and the worker is not woken), so a subsequent set_mtime with a
valid timestamp returns false, contradicting the claim; the fsync path, in
which the worker performs the transition to 2, does satisfy the claim. -/
theorem C4_finalize_set_mtime :
    (let s0 : file_writer_state :=
      { error_ := false, finalizing_ := 0, buffers_ := 0, fsync_ := false,
        preallocated_ := false, file_open := true, position := 3 }
     let r := file_writer_do_finalize s0
     r.1 = aio_result.ok ∧ r.2.1.finalizing_ = 1 ∧
       file_writer_set_mtime true r.2.1 = false) ∧
    (let t0 : file_writer_state :=
      { error_ := false, finalizing_ := 0, buffers_ := 0, fsync_ := true,
        preallocated_ := false, file_open := true, position := 3 }
     let r1 := file_writer_do_finalize t0
     let t1 := file_writer_worker_finalize_step true r1.2.1
     let r2 := file_writer_do_finalize t1
     r1.1 = aio_result.wait ∧ r2.1 = aio_result.ok ∧
       file_writer_set_mtime true r2.2.1 = true) := by
  constructor
  · exact ⟨rfl, rfl, rfl⟩
  · exact ⟨rfl, rfl, rfl⟩

/-- C3 counterexample: a threaded reader with a latched error but one buffer
still queued returns ok (with the queued buffer) from do_get_buffer, not
error, refuting the claim that every call after the error latch returns
error. -/
theorem C3_counterexample :
    (threaded_reader_do_get_buffer
      { buffers_ := [[1]], max_buffers_ := 4, error_ := true, eof_ := false,
        get_buffer_called_ := true }).1 = aio_result.ok := by
  rfl

/-- C3 amended: once error_ is latched, add_buffer always returns error (even
for an empty lease or an empty buffer), and get_buffer returns error once the
queue is empty; while previously produced buffers are still queued,
get_buffer still dequeues and returns them with ok. -/
theorem C3_error_latched :
    (∀ s : threaded_reader_state, s.error_ = true → s.buffers_ = [] →
      (threaded_reader_do_get_buffer s).1 = aio_result.error) ∧
    (∀ (s : threaded_reader_state) (b : List Nat) (rest : List (List Nat)),
      s.error_ = true → s.buffers_ = b :: rest →
      (threaded_reader_do_get_buffer s).1 = aio_result.ok) ∧
    (∀ (w : threaded_writer_state) (b : Option (List Nat)), w.error_ = true →
      (writer_base_add_buffer w b).1 = aio_result.error) := by
  refine ⟨?_, ?_, ?_⟩
  · intro s herr hemp
    unfold threaded_reader_do_get_buffer
    split
    · simp [herr]
    · rename_i b rest hcons
      rw [hemp] at hcons
      exact absurd hcons (by simp)
  · intro s b rest herr hcons
    unfold threaded_reader_do_get_buffer
    split
    · rename_i hnil
      rw [hcons] at hnil
      exact absurd hnil (by simp)
    · rfl
  · intro w b herr
    unfold writer_base_add_buffer
    simp [herr]

/-- C3 witness: concrete instances of the three error-latching facts. -/
theorem C3_error_latched_witness :
    (threaded_reader_do_get_buffer
      { buffers_ := [], max_buffers_ := 4, error_ := true, eof_ := false,
        get_buffer_called_ := false }).1 = aio_result.error ∧
    (threaded_reader_do_get_buffer
      { buffers_ := [[2]], max_buffers_ := 4, error_ := true, eof_ := false,
        get_buffer_called_ := false }).1 = aio_result.ok ∧
    (writer_base_add_buffer
      { buffers_ := [], max_buffers_ := 4, error_ := true } none).1
      = aio_result.error := by
  refine ⟨C3_error_latched.1 _ rfl rfl, ?_, C3_error_latched.2.2 _ none rfl⟩
  exact C3_error_latched.2.1 _ [2] [] rfl rfl

/-! ## In-memory readers: construction and do_get_buffer -/

/-- State of a view_reader (and of a string_reader, whose body is identical up
to ownership of the backing data, which the embedding does not track). -/
structure view_reader_state where
  view_ : List Nat
  size_ : Nat
  max_size_ : Nat
  start_offset_ : Nat
  remaining_ : Nat
  get_buffer_called_ : Bool
  error_ : Bool
  eof_ : Bool
deriving DecidableEq

/-- Embedding of the view_reader constructor: reader_base default-initializes
size_, max_size_, start_offset_ and remaining_ to nosize, then the constructor
body sets size_ = max_size_ = remaining_ = view size and eof on emptiness.
The constructor body never assigns start_offset_. -/
def mk_view_reader (data : List Nat) : view_reader_state :=
  { view_ := data
    size_ := data.length
    max_size_ := data.length
    start_offset_ := nosize
    remaining_ := data.length
    get_buffer_called_ := false
    error_ := false
    eof_ := data.length = 0 }

/-- Embedding of the string_reader constructors; both overloads have the same
body as the view_reader constructor. -/
def mk_string_reader (data : List Nat) : view_reader_state :=
  mk_view_reader data

/-- Embedding of view_reader::do_get_buffer (the string_reader body is
identical).  cap is the capacity of the pool buffer obtained from the pool;
the pool is assumed to have a free buffer, as it does throughout the
single-lease round-trip pipeline.  The source reads to_read bytes starting at
view_.data() + start_offset_ + size_ - remaining_ (uint64 arithmetic); a read
outside the view is undefined behaviour and is modelled as none. -/
def view_reader_do_get_buffer (cap : Nat) (s : view_reader_state) :
    Option (aio_result × Option (List Nat) × view_reader_state) :=
  if s.error_ then some (aio_result.error, none, s)
  else if s.eof_ then some (aio_result.ok, none, s)
  else
    let to_read := if s.remaining_ ≠ nosize ∧ s.remaining_ < cap then s.remaining_ else cap
    let idx := (s.start_offset_ + (s.size_ - s.remaining_)) % u64
    if idx + to_read ≤ s.view_.length then
      let b := (s.view_.drop idx).take to_read
      let rem := s.remaining_ - to_read
      some (aio_result.ok, some b,
        { s with remaining_ := rem, eof_ := rem = 0, get_buffer_called_ := true })
    else none

/-! ## buffer_writer -/

/-- State of a buffer_writer: the client-owned destination buffer, the size
limit, and the latched error flag. -/
structure buffer_writer_state where
  buffer_ : List Nat
  size_limit_ : Nat
  error_ : Bool
deriving DecidableEq

/-- Embedding of writer_base::add_buffer specialized to buffer_writer: latched
error first, empty lease or empty buffer is an ok no-op, then
buffer_writer::do_add_buffer enforces the size limit (latching error_ on
overflow) and appends to the destination. -/
def buffer_writer_add_buffer (w : buffer_writer_state) (b : Option (List Nat)) :
    aio_result × buffer_writer_state :=
  if w.error_ then (aio_result.error, w)
  else
    match b with
    | none => (aio_result.ok, w)
    | some bytes =>
      if bytes.length = 0 then (aio_result.ok, w)
      else if w.size_limit_ - w.buffer_.length < bytes.length then
        (aio_result.error, { w with error_ := true })
      else (aio_result.ok, { w with buffer_ := w.buffer_ ++ bytes })

/-- Round-trip pipeline of the spec: repeatedly call get_buffer on the view
reader and pass each lease to the buffer writer via add_buffer, until
get_buffer returns ok with no buffer (eof); the result is the destination
buffer.  Any error, wait, or undefined read aborts with none. -/
def pipe_view_to_buffer (cap : Nat) :
    Nat → view_reader_state → buffer_writer_state → Option (List Nat)
  | 0, _, _ => none
  | fuel + 1, r, w =>
    match view_reader_do_get_buffer cap r with
    | none => none
    | some (aio_result.ok, none, _) => some w.buffer_
    | some (aio_result.ok, some b, r2) =>
      match buffer_writer_add_buffer w (some b) with
      | (aio_result.ok, w2) => pipe_view_to_buffer cap fuel r2 w2
      | (_, _) => none
    | some (aio_result.wait, _, _) => none
    | some (aio_result.error, _, _) => none

/-- Round trip of a byte sequence through a fresh view_reader and a fresh
buffer_writer with the given pool buffer capacity and writer size limit. -/
def view_buffer_round_trip (cap limit : Nat) (data : List Nat) : Option (List Nat) :=
  pipe_view_to_buffer cap (data.length + 1) (mk_view_reader data)
    { buffer_ := [], size_limit_ := limit, error_ := false }

/-- C2 code defect: a freshly constructed view_reader over one byte has size_,
remaining_ and eof as the claim states, but start_offset_ is nosize, not 0:
the view_reader/string_reader constructors never assign start_offset_, so the
reader_base default nosize survives (the claim and spec require 0). -/
theorem C2_view_reader_initial_state :
    (mk_view_reader [42]).size_ = 1 ∧
    (mk_view_reader [42]).remaining_ = (mk_view_reader [42]).size_ ∧
    (mk_view_reader [42]).eof_ = false ∧
    (mk_view_reader [42]).start_offset_ = nosize ∧
    (mk_string_reader [42]).start_offset_ = nosize ∧
    nosize ≠ 0 := by
  refine ⟨rfl, rfl, by decide, rfl, rfl, by decide⟩

/-- C1 code defect: piping a fresh view_reader over the one-byte sequence
[42] into a buffer_writer with ample limit does not reproduce [42]: because
start_offset_ is left at nosize, the first read addresses the byte at uint64
index 2^64 - 1, i.e. one byte before the view (undefined behaviour, modelled
as none), so the destination is not the source sequence. -/
theorem C1_round_trip_out_of_bounds :
    view_buffer_round_trip 4 100 [42] = none ∧
    view_buffer_round_trip 4 100 [42] ≠ some [42] := by
  constructor
  · rfl
  · decide

/-! ## reader_base::seek -/

/-- Numeric value of u64. -/
theorem u64_val : u64 = 18446744073709551616 := by norm_num [u64]

/-- Numeric value of nosize. -/
theorem nosize_val : nosize = 18446744073709551615 := by norm_num [nosize]

/-- State of a reader as touched by reader_base::seek.  seekable is the value
of the virtual seekable() call and do_seek_ok the outcome of the virtual
do_seek call (the in-memory readers always return true there). -/
structure reader_seek_state where
  size_ : Nat
  max_size_ : Nat
  start_offset_ : Nat
  remaining_ : Nat
  get_buffer_called_ : Bool
  error_ : Bool
  eof_ : Bool
  seekable : Bool
  do_seek_ok : Bool
  buffers_ : List (List Nat)
deriving DecidableEq

/-- Well-formedness: all uint64_t members hold values below 2^64. -/
def wf_reader (s : reader_seek_state) : Prop :=
  s.size_ < u64 ∧ s.max_size_ < u64 ∧ s.start_offset_ < u64 ∧ s.remaining_ < u64

/-- Current offset used by seek when the caller passes nosize for offset:
start_offset_ itself, or 0 when the reader has never been positioned. -/
def current_offset (s : reader_seek_state) : Nat :=
  if s.start_offset_ = nosize then 0 else s.start_offset_

/-- Step 1 substitution of seek for the offset argument. -/
def effective_offset (s : reader_seek_state) (offset0 : Nat) : Nat :=
  if offset0 = nosize then current_offset s else offset0

/-- Step 1 substitution of seek for the size argument: size is replaced by the
current size_ only when the offset argument was also nosize. -/
def effective_size (s : reader_seek_state) (offset0 size0 : Nat) : Nat :=
  if offset0 = nosize ∧ size0 = nosize then s.size_ else size0

/-- Step 2 change detection of seek, on the substituted offset and size.  The
uint64 sum offset + size_ of the source is taken modulo 2^64. -/
def seek_change (s : reader_seek_state) (offset size : Nat) : Bool :=
  s.get_buffer_called_ || decide (offset ≠ s.start_offset_) ||
    (if size = nosize then decide ((offset + s.size_) % u64 ≠ s.max_size_)
     else decide (size ≠ s.size_))

/-- Body of reader_base::seek after the Step 1 substitution: sanity checks,
error latch, change detection, seekability restriction, then the update of
start_offset_, size_, remaining_, eof_ and the queue, ending in do_seek.  The
uint64 difference max_size_ - start_offset_ of the source is modelled with an
explicit wrap. -/
def reader_base_seek_checked (s : reader_seek_state) (offset size : Nat) :
    Bool × reader_seek_state :=
  if size ≠ nosize ∧ nosize - size ≤ offset then (false, s)
  else if size ≠ nosize ∧ s.max_size_ < offset + size then (false, s)
  else if s.error_ then (false, s)
  else if ¬ seek_change s offset size then (true, s)
  else if ¬ s.seekable ∧ (s.start_offset_ ≠ nosize ∨ offset ≠ 0) then (false, s)
  else
    let new_size := if size ≠ nosize then size
      else if s.max_size_ ≠ nosize then (s.max_size_ + u64 - offset) % u64
      else nosize
    (s.do_seek_ok,
      { s with buffers_ := [], start_offset_ := offset, size_ := new_size,
               remaining_ := new_size, eof_ := decide (new_size = 0),
               get_buffer_called_ := false })

/-- Embedding of reader_base::seek. -/
def reader_base_seek (s : reader_seek_state) (offset0 size0 : Nat) :
    Bool × reader_seek_state :=
  reader_base_seek_checked s (effective_offset s offset0) (effective_size s offset0 size0)

/-- Current offset is never nosize (it is 0 or a non-nosize start_offset_). -/
theorem current_offset_ne_nosize (s : reader_seek_state) :
    current_offset s ≠ nosize := by
  unfold current_offset
  split
  · rw [nosize_val]
    omega
  · assumption

/-- Change detection for a nosize size argument, with the ite resolved. -/
theorem seek_change_nosize (s : reader_seek_state) (offset : Nat) :
    seek_change s offset nosize =
      (s.get_buffer_called_ || decide (offset ≠ s.start_offset_) ||
        decide ((offset + s.size_) % u64 ≠ s.max_size_)) := by
  simp [seek_change]

/-- C6: semantics of reader_base::seek on well-formed uint64 inputs.  A nosize
offset keeps the current offset, and then a nosize size keeps the current
size (seek(nosize, nosize) behaves exactly like seek(current, size_)); with a
real offset, a nosize size means read to the end of the source (on success
size_ becomes max_size_ - offset).  seek rejects whenever the effective
offset + size overflows uint64, whenever size is not nosize and
offset + size exceeds max_size_, and whenever a state change is required on a
non-seekable source at a non-zero offset or after reading has begun (the
reader was positioned once, start_offset_ is not nosize). -/
theorem C6_seek_semantics (s : reader_seek_state) (offset0 size0 : Nat)
    (hwf : wf_reader s) (ho : offset0 < u64) (hs : size0 < u64) :
    (reader_base_seek s nosize nosize = reader_base_seek s (current_offset s) s.size_) ∧
    (size0 ≠ nosize →
      reader_base_seek s nosize size0 = reader_base_seek s (current_offset s) size0) ∧
    (effective_size s offset0 size0 ≠ nosize →
      u64 ≤ effective_offset s offset0 + effective_size s offset0 size0 →
      (reader_base_seek s offset0 size0).1 = false) ∧
    (effective_size s offset0 size0 ≠ nosize →
      s.max_size_ < effective_offset s offset0 + effective_size s offset0 size0 →
      (reader_base_seek s offset0 size0).1 = false) ∧
    (s.seekable = false →
      seek_change s (effective_offset s offset0) (effective_size s offset0 size0) = true →
      (s.start_offset_ ≠ nosize ∨ effective_offset s offset0 ≠ 0) →
      (reader_base_seek s offset0 size0).1 = false) ∧
    (offset0 ≠ nosize → size0 = nosize → s.max_size_ ≠ nosize →
      offset0 ≤ s.max_size_ → (reader_base_seek s offset0 size0).1 = true →
      (reader_base_seek s offset0 size0).2.start_offset_ = offset0 ∧
      (reader_base_seek s offset0 size0).2.size_ = s.max_size_ - offset0) := by
  obtain ⟨hwf1, hwf2, hwf3, hwf4⟩ := hwf
  have hcur := current_offset_ne_nosize s
  refine ⟨?_, ?_, ?_, ?_, ?_, ?_⟩
  · unfold reader_base_seek
    simp [effective_offset, effective_size, hcur]
  · intro h
    unfold reader_base_seek
    simp [effective_offset, effective_size, hcur, h]
  · intro h1 h2
    set off := effective_offset s offset0 with hoff
    set sz := effective_size s offset0 size0 with hsz
    have hszlt : sz < u64 := by
      rw [hsz]
      unfold effective_size
      split
      · exact hwf1
      · exact hs
    unfold reader_base_seek reader_base_seek_checked
    rw [← hoff, ← hsz, if_pos]
    constructor
    · exact h1
    · rw [nosize_val] at *
      rw [u64_val] at *
      omega
  · intro h1 h2
    set off := effective_offset s offset0 with hoff
    set sz := effective_size s offset0 size0 with hsz
    unfold reader_base_seek reader_base_seek_checked
    rw [← hoff, ← hsz]
    by_cases hc1 : sz ≠ nosize ∧ nosize - sz ≤ off
    · rw [if_pos hc1]
    · rw [if_neg hc1, if_pos ⟨h1, h2⟩]
  · intro h1 h2 h3
    set off := effective_offset s offset0 with hoff
    set sz := effective_size s offset0 size0 with hsz
    unfold reader_base_seek reader_base_seek_checked
    rw [← hoff, ← hsz]
    by_cases hc1 : sz ≠ nosize ∧ nosize - sz ≤ off
    · rw [if_pos hc1]
    · rw [if_neg hc1]
      by_cases hc2 : sz ≠ nosize ∧ s.max_size_ < off + sz
      · rw [if_pos hc2]
      · rw [if_neg hc2]
        by_cases hc3 : s.error_
        · rw [if_pos hc3]
        · rw [if_neg hc3, if_neg, if_pos]
          · constructor
            · rw [h1]
              simp
            · exact h3
          · rw [h2]
            simp
  · intro h1 h2 h3 h4 h5
    have hoffe : effective_offset s offset0 = offset0 := by
      unfold effective_offset
      rw [if_neg h1]
    have hsze : effective_size s offset0 size0 = nosize := by
      unfold effective_size
      rw [if_neg, h2]
      intro hand
      exact h1 hand.1
    rw [reader_base_seek, hoffe, hsze] at h5 ⊢
    unfold reader_base_seek_checked at h5 ⊢
    rw [if_neg (by simp), if_neg (by simp)] at h5 ⊢
    by_cases hc3 : s.error_
    · rw [if_pos hc3] at h5
      exact absurd h5 (by simp)
    · rw [if_neg hc3] at h5 ⊢
      by_cases hc4 : seek_change s offset0 nosize
      · rw [if_neg (by simpa using hc4)] at h5 ⊢
        by_cases hc5 : ¬ s.seekable ∧ (s.start_offset_ ≠ nosize ∨ offset0 ≠ 0)
        · rw [if_pos hc5] at h5
          exact absurd h5 (by simp)
        · rw [if_neg hc5] at h5 ⊢
          constructor
          · rfl
          · show (if nosize ≠ nosize then nosize
              else if s.max_size_ ≠ nosize then (s.max_size_ + u64 - offset0) % u64
              else nosize) = s.max_size_ - offset0
            rw [if_neg (by simp : ¬ (nosize ≠ nosize)), if_pos h3]
            have hrw : s.max_size_ + u64 - offset0 = (s.max_size_ - offset0) + u64 := by
              omega
            have hlt : s.max_size_ - offset0 < u64 := by
              omega
            rw [hrw, Nat.add_mod_right, Nat.mod_eq_of_lt hlt]
      · rw [if_pos (by simpa using hc4)] at h5 ⊢
        rw [seek_change_nosize] at hc4
        simp only [Bool.or_eq_true, decide_eq_true_eq, not_or] at hc4
        obtain ⟨⟨hg, hst⟩, hmod⟩ := hc4
        simp only [not_not] at hst hmod
        constructor
        · show s.start_offset_ = offset0
          exact hst.symm
        · show s.size_ = s.max_size_ - offset0
          have hlt2 : offset0 + s.size_ < 2 * u64 := by
            omega
          rcases Nat.lt_or_ge (offset0 + s.size_) u64 with hlt | hge
          · rw [Nat.mod_eq_of_lt hlt] at hmod
            omega
          · have hrw : offset0 + s.size_ = (offset0 + s.size_ - u64) + u64 := by
              omega
            rw [hrw, Nat.add_mod_right, Nat.mod_eq_of_lt (by omega)] at hmod
            omega

/-- Sample seekable reader state for the seek witness. -/
def seek_sample : reader_seek_state :=
  { size_ := 100, max_size_ := 100, start_offset_ := 0, remaining_ := 100,
    get_buffer_called_ := false, error_ := false, eof_ := false,
    seekable := true, do_seek_ok := true, buffers_ := [] }

/-- Sample non-seekable reader state for the seek witness. -/
def seek_sample_noseek : reader_seek_state :=
  { seek_sample with seekable := false }

/-- C6 witness: concrete instances.  On a seekable 100-byte reader positioned
at 0, seek(nosize, nosize) equals seek(current, size_); seek(10, 200) fails
the range check; a required change on a positioned non-seekable reader at
offset 2 is rejected; and seek(10, nosize) succeeds, reading to the end:
size_ becomes 90. -/
theorem C6_seek_semantics_witness :
    (reader_base_seek seek_sample nosize nosize =
      reader_base_seek seek_sample (current_offset seek_sample) seek_sample.size_) ∧
    ((reader_base_seek seek_sample 10 200).1 = false) ∧
    ((reader_base_seek seek_sample_noseek 2 50).1 = false) ∧
    ((reader_base_seek seek_sample 10 nosize).2.size_ = 90) := by
  refine ⟨?_, ?_, ?_, ?_⟩
  · exact (C6_seek_semantics seek_sample 0 0
      ⟨by decide, by decide, by decide, by decide⟩ (by decide) (by decide)).1
  · exact (C6_seek_semantics seek_sample 10 200
      ⟨by decide, by decide, by decide, by decide⟩ (by decide)
      (by decide)).2.2.2.1 (by decide) (by decide)
  · exact (C6_seek_semantics seek_sample_noseek 2 50
      ⟨by decide, by decide, by decide, by decide⟩ (by decide)
      (by decide)).2.2.2.2.1 (by decide) (by decide) (by decide)
  · exact ((C6_seek_semantics seek_sample 10 nosize
      ⟨by decide, by decide, by decide, by decide⟩ (by decide)
      (by decide)).2.2.2.2.2 (by decide) rfl (by decide) (by decide) (by decide)).2.trans
      (by decide)

/-- C7 witness: a pool of 2 buffers of 1000 bytes with 4096-byte pages does
not overflow, so it has a free-list of length 2 and the exact mapping length
(4096 + 4096) * 2 + 4096 with round_up(1000, 4096) = 4096. -/
theorem C7_pool_layout_witness :
    (aio_buffer_pool_layout 2 1000 4096).buffers_.length = 2 ∧
    (aio_buffer_pool_layout 2 1000 4096).memory_size_ = (4096 + 4096) * 2 + 4096 := by
  obtain ⟨hd, hle, hlt, hmemg, hlen, hget, hexact⟩ :=
    C7_pool_layout 2 1000 4096 (by decide) (by decide) (by decide) (by decide)
  refine ⟨hlen, ?_⟩
  have hru : round_up_page (effective_buffer_size 1000) 4096 = 4096 := by decide
  have h := (hexact (by rw [hru]; decide)).1
  rw [hru] at h
  exact h

/-! ## IPv6 canonicalizer do_get_ipv6_long_form (iputils)

Characters are modelled by their code points: ':' = 58, '[' = 91, ']' = 93,
'0'..'9' = 48..57, 'a'..'f' = 97..102, 'A'..'F' = 65..70.  Strings are lists
of code points; the empty list is the empty (rejecting) result. -/

/-- Character classifier and lowercaser of the group parsing loops: a decimal
digit or lowercase hex digit is kept, an uppercase hex digit gets 32 added
(c + ('a' - 'A')), anything else is invalid. -/
def hex_char_lower (c : Nat) : Option Nat :=
  if (48 ≤ c ∧ c ≤ 57) ∨ (97 ≤ c ∧ c ≤ 102) then some c
  else if 65 ≤ c ∧ c ≤ 70 then some (c + 32) else none

/-- Lowercase hex or decimal digit predicate (the characters hex_char_lower
keeps unchanged). -/
def is_lower_hex (c : Nat) : Prop := (48 ≤ c ∧ c ≤ 57) ∨ (97 ≤ c ∧ c ≤ 102)

instance (c : Nat) : Decidable (is_lower_hex c) := by
  unfold is_lower_hex
  infer_instance

/-- Validate and lowercase a whole group of characters; none when any
character is invalid (mirrors the per-character loop of the source). -/
def hex_group : List Nat → Option (List Nat)
  | [] => some []
  | c :: rest =>
    match hex_char_lower c with
    | none => none
    | some d =>
      match hex_group rest with
      | none => none
      | some ds => some (d :: ds)

/-- Search for character c in s at positions i, i+1, ... (fuel-bounded scan
mirroring String::find). -/
def find_char_go (s : List Nat) (c : Nat) : Nat → Nat → Option Nat
  | 0, _ => none
  | fuel + 1, i => if s.getD i 0 = c then some i else find_char_go s c fuel (i + 1)

/-- Embedding of short_address.find(c, start): index of the first occurrence
of c at position start or later, none when there is none. -/
def find_char (s : List Nat) (c : Nat) (start : Nat) : Option Nat :=
  find_char_go s c (s.length - start) start

/-- Embedding of short_address.rfind(c, i): index of the last occurrence of c
at position i or earlier, none when there is none. -/
def rfind_char (s : List Nat) (c : Nat) : Nat → Option Nat
  | 0 => if s.getD 0 0 = c then some 0 else none
  | i + 1 => if s.getD (i + 1) 0 = c then some (i + 1) else rfind_char s c i

/-- Overwrite buf starting at position p with the characters of g. -/
def write_at : List Nat → Nat → List Nat → List Nat
  | buf, _, [] => buf
  | buf, p, c :: rest => write_at (buf.set p c) (p + 1) rest

/-- Template of the output buffer: 0000:0000:0000:0000:0000:0000:0000:0000
(39 characters). -/
def ipv6_template : List Nat :=
  [48, 48, 48, 48, 58,
   48, 48, 48, 48, 58,
   48, 48, 48, 48, 58,
   48, 48, 48, 48, 58,
   48, 48, 48, 48, 58,
   48, 48, 48, 48, 58,
   48, 48, 48, 48, 58,
   48, 48, 48, 48]

/-- Left half parsing loop of do_get_ipv6_long_form, before a possible "::".
The loop condition left_segments < 8 is carried by the fuel (fuel is
8 - segs); e is the end index of the region; returns none on rejection and
otherwise the final (start, left_segments, buf).  An empty group breaks out:
at segment 0 it must be the leading "::" (the character after the colon is
checked) and start skips one position; later it leaves start on the colon. -/
def ipv6_left_loop (s : List Nat) (e : Nat) :
    Nat → Nat → Nat → List Nat → Option (Nat × Nat × List Nat)
  | 0, start, segs, buf => some (start, segs, buf)
  | fuel + 1, start, segs, buf =>
    if e ≤ start then some (start, segs, buf)
    else
      let pos := (find_char s 58 start).getD e
      if pos = start then
        if segs = 0 then
          if s.getD (start + 1) 0 = 58 then some (pos + 1, segs, buf) else none
        else some (pos, segs, buf)
      else
        let len := pos - start
        if 4 < len then none
        else
          match hex_group ((s.drop start).take len) with
          | none => none
          | some g =>
            ipv6_left_loop s e fuel (pos + 1) (segs + 1)
              (write_at buf (5 * segs + (4 - len)) g)

/-- Right half parsing loop of do_get_ipv6_long_form, scanning groups from the
back.  left_segs and start come from the left loop; the loop condition
left_segments + right_segments < 8 is carried by the fuel; returns the final
end index and buffer.  The source states rfind cannot fail here; the
unreachable none case rejects.  A zero-length group rejects when any segment
was already parsed, otherwise it breaks out of the loop. -/
def ipv6_right_loop (s : List Nat) (left_segs start : Nat) :
    Nat → Nat → Nat → List Nat → Option (Nat × List Nat)
  | 0, e, _, buf => some (e, buf)
  | fuel + 1, e, segs, buf =>
    if e ≤ start then some (e, buf)
    else
      let e2 := e - 1
      match rfind_char s 58 e2 with
      | none => none
      | some pos =>
        let len := e2 - pos
        if len = 0 then
          if left_segs ≠ 0 ∨ segs ≠ 0 then none else some (e2, buf)
        else if 4 < len then none
        else
          match hex_group ((s.drop (pos + 1)).take len) with
          | none => none
          | some g =>
            ipv6_right_loop s left_segs start fuel pos (segs + 1)
              (write_at buf (5 * (8 - segs) - 1 - len) g)

/-- Core of do_get_ipv6_long_form on the region [start0, e) of s: run the left
loop, then the right loop, then reject when unconsumed characters remain
between start and end. -/
def ipv6_core (s : List Nat) (start0 e : Nat) : List Nat :=
  match ipv6_left_loop s e 8 start0 0 ipv6_template with
  | none => []
  | some (start, segs, buf) =>
    match ipv6_right_loop s segs start (8 - segs) e 0 buf with
    | none => []
    | some (eF, bufF) => if start < eF then [] else bufF

/-- Embedding of do_get_ipv6_long_form: strip one bracket pair (rejecting a
'[' without a closing ']'), reject regions shorter than 2 or longer than 39
characters, then parse. -/
def do_get_ipv6_long_form (s : List Nat) : List Nat :=
  if s ≠ [] ∧ s.getD 0 0 = 91 then
    if s.getD (s.length - 1) 0 ≠ 93 then []
    else if s.length - 2 < 2 ∨ 39 < s.length - 2 then []
    else ipv6_core s 1 (s.length - 1)
  else if s.length < 2 ∨ 39 < s.length then []
  else ipv6_core s 0 s.length

/-- Long-form address: 39 characters, a colon at every position congruent to
4 mod 5 and a lowercase hex digit everywhere else. -/
def is_long_form (s : List Nat) : Prop :=
  s.length = 39 ∧ ∀ i, i < 39 →
    (i % 5 = 4 → s.getD i 0 = 58) ∧ (i % 5 ≠ 4 → is_lower_hex (s.getD i 0))

/-- Double colon at position i (both characters inside the string). -/
def double_colon_at (s : List Nat) (i : Nat) : Prop :=
  i + 1 < s.length ∧ s.getD i 0 = 58 ∧ s.getD (i + 1) 0 = 58

/-- The input contains "::" (at least) twice. -/
def contains_two_double_colons (s : List Nat) : Prop :=
  ∃ i j, i < j ∧ double_colon_at s i ∧ double_colon_at s j

/-- The 41-character input "[" ++ zero long form ++ "]". -/
def bracketed41 : List Nat := 91 :: ipv6_template ++ [93]

/-- C9 counterexample: the 41-character bracketed long-form address is longer
than 39 characters yet is accepted (the brackets are stripped before the
length check), refuting the claim that every input longer than 39 characters
is rejected. -/
theorem C9_counterexample :
    bracketed41.length = 41 ∧ do_get_ipv6_long_form bracketed41 ≠ [] := by
  constructor
  · rfl
  · decide

/-! ### Search and buffer lemmas for the canonicalizer proofs -/

/-- Successful find_char_go: the hit is in the scanned range, matches c, and
nothing before it in the range matches. -/
theorem find_char_go_some (s : List Nat) (c : Nat) :
    ∀ fuel i p, find_char_go s c fuel i = some p →
      i ≤ p ∧ p < i + fuel ∧ s.getD p 0 = c ∧
        ∀ k, i ≤ k → k < p → s.getD k 0 ≠ c := by
  intro fuel
  induction fuel with
  | zero =>
    intro i p h
    exact absurd h (by simp [find_char_go])
  | succ n ih =>
    intro i p h
    unfold find_char_go at h
    by_cases hc : s.getD i 0 = c
    · rw [if_pos hc] at h
      injection h with h
      subst h
      exact ⟨le_refl _, by omega, hc, fun k hk1 hk2 => absurd hk1 (by omega)⟩
    · rw [if_neg hc] at h
      obtain ⟨h1, h2, h3, h4⟩ := ih (i + 1) p h
      refine ⟨by omega, by omega, h3, ?_⟩
      intro k hk1 hk2
      rcases Nat.eq_or_lt_of_le hk1 with he | hl
      · rw [← he]
        exact hc
      · exact h4 k (by omega) hk2

/-- Failed find_char_go: nothing in the scanned range matches c. -/
theorem find_char_go_none (s : List Nat) (c : Nat) :
    ∀ fuel i, find_char_go s c fuel i = none →
      ∀ k, i ≤ k → k < i + fuel → s.getD k 0 ≠ c := by
  intro fuel
  induction fuel with
  | zero =>
    intro i _ k hk1 hk2
    omega
  | succ n ih =>
    intro i h k hk1 hk2
    unfold find_char_go at h
    by_cases hc : s.getD i 0 = c
    · rw [if_pos hc] at h
      cases h
    · rw [if_neg hc] at h
      rcases Nat.eq_or_lt_of_le hk1 with he | hl
      · rw [← he]
        exact hc
      · exact ih (i + 1) h k (by omega) (by omega)

/-- find_char_go finds the first match of the scanned range. -/
theorem find_char_go_eq_some (s : List Nat) (c : Nat) :
    ∀ fuel i p, i ≤ p → p < i + fuel → s.getD p 0 = c →
      (∀ k, i ≤ k → k < p → s.getD k 0 ≠ c) →
      find_char_go s c fuel i = some p := by
  intro fuel
  induction fuel with
  | zero =>
    intro i p h1 h2
    omega
  | succ n ih =>
    intro i p h1 h2 h3 h4
    unfold find_char_go
    rcases Nat.eq_or_lt_of_le h1 with he | hl
    · rw [he, if_pos h3]
    · rw [if_neg (h4 i (le_refl _) hl)]
      exact ih (i + 1) p (by omega) (by omega) h3 (fun k hk1 hk2 => h4 k (by omega) hk2)

/-- find_char_go misses when nothing in the scanned range matches. -/
theorem find_char_go_eq_none (s : List Nat) (c : Nat) :
    ∀ fuel i, (∀ k, i ≤ k → k < i + fuel → s.getD k 0 ≠ c) →
      find_char_go s c fuel i = none := by
  intro fuel
  induction fuel with
  | zero =>
    intro i _
    rfl
  | succ n ih =>
    intro i h
    unfold find_char_go
    rw [if_neg (h i (le_refl _) (by omega))]
    exact ih (i + 1) (fun k hk1 hk2 => h k (by omega) (by omega))

/-- Successful find_char: first occurrence of c at start or later. -/
theorem find_char_some (s : List Nat) (c start p : Nat)
    (h : find_char s c start = some p) :
    start ≤ p ∧ p < s.length ∧ s.getD p 0 = c ∧
      ∀ k, start ≤ k → k < p → s.getD k 0 ≠ c := by
  obtain ⟨h1, h2, h3, h4⟩ := find_char_go_some s c _ _ _ h
  refine ⟨h1, ?_, h3, h4⟩
  by_cases hs : start ≤ s.length
  · omega
  · exfalso
    have hz : s.length - start = 0 := by omega
    rw [find_char, hz] at h
    exact absurd h (by simp [find_char_go])

/-- Failed find_char: no occurrence of c at start or later. -/
theorem find_char_none (s : List Nat) (c start : Nat)
    (h : find_char s c start = none) :
    ∀ k, start ≤ k → k < s.length → s.getD k 0 ≠ c := by
  intro k hk1 hk2
  exact find_char_go_none s c _ _ h k hk1 (by omega)

/-- find_char finds a known first occurrence. -/
theorem find_char_eq_some (s : List Nat) (c start p : Nat)
    (h1 : start ≤ p) (h2 : p < s.length) (h3 : s.getD p 0 = c)
    (h4 : ∀ k, start ≤ k → k < p → s.getD k 0 ≠ c) :
    find_char s c start = some p :=
  find_char_go_eq_some s c _ _ _ h1 (by omega) h3 h4

/-- find_char misses when there is no occurrence at start or later. -/
theorem find_char_eq_none (s : List Nat) (c start : Nat)
    (h : ∀ k, start ≤ k → k < s.length → s.getD k 0 ≠ c) :
    find_char s c start = none :=
  find_char_go_eq_none s c _ _ (fun k hk1 hk2 => h k hk1 (by omega))

/-- Successful rfind_char: the hit is at i or earlier, matches c, and nothing
after it up to i matches. -/
theorem rfind_char_some (s : List Nat) (c : Nat) :
    ∀ i p, rfind_char s c i = some p →
      p ≤ i ∧ s.getD p 0 = c ∧ ∀ k, p < k → k ≤ i → s.getD k 0 ≠ c := by
  intro i
  induction i with
  | zero =>
    intro p h
    unfold rfind_char at h
    by_cases hc : s.getD 0 0 = c
    · rw [if_pos hc] at h
      injection h with h
      subst h
      exact ⟨le_refl _, hc, fun k hk1 hk2 => by omega⟩
    · rw [if_neg hc] at h
      cases h
  | succ n ih =>
    intro p h
    unfold rfind_char at h
    by_cases hc : s.getD (n + 1) 0 = c
    · rw [if_pos hc] at h
      injection h with h
      subst h
      exact ⟨le_refl _, hc, fun k hk1 hk2 => by omega⟩
    · rw [if_neg hc] at h
      obtain ⟨h1, h2, h3⟩ := ih p h
      refine ⟨by omega, h2, ?_⟩
      intro k hk1 hk2
      rcases Nat.eq_or_lt_of_le hk2 with he | hl
      · rw [he]
        exact hc
      · exact h3 k hk1 (by omega)

/-- rfind_char succeeds, with a hit no earlier than any known occurrence. -/
theorem rfind_char_ge (s : List Nat) (c : Nat) :
    ∀ i q, q ≤ i → s.getD q 0 = c →
      ∃ p, rfind_char s c i = some p ∧ q ≤ p := by
  intro i
  induction i with
  | zero =>
    intro q hq hc
    have hq0 : q = 0 := by omega
    subst hq0
    exact ⟨0, by unfold rfind_char; rw [if_pos hc], le_refl _⟩
  | succ n ih =>
    intro q hq hc
    by_cases hn : s.getD (n + 1) 0 = c
    · exact ⟨n + 1, by unfold rfind_char; rw [if_pos hn], hq⟩
    · have hq' : q ≤ n := by
        rcases Nat.eq_or_lt_of_le hq with he | hl
        · exact absurd (he ▸ hc) hn
        · omega
      obtain ⟨p, hp1, hp2⟩ := ih q hq' hc
      exact ⟨p, by unfold rfind_char; rw [if_neg hn]; exact hp1, hp2⟩

/-- hex_char_lower keeps a lowercase hex digit unchanged. -/
theorem hex_char_lower_of_lower (c : Nat) (h : is_lower_hex c) :
    hex_char_lower c = some c := by
  unfold hex_char_lower
  unfold is_lower_hex at h
  rw [if_pos h]

/-- A lowercase hex digit is not a colon. -/
theorem lower_hex_ne_colon (c : Nat) (h : is_lower_hex c) : c ≠ 58 := by
  unfold is_lower_hex at h
  omega

/-- hex_group is the identity on groups of lowercase hex digits. -/
theorem hex_group_self : ∀ g : List Nat, (∀ x ∈ g, is_lower_hex x) →
    hex_group g = some g := by
  intro g
  induction g with
  | nil =>
    intro _
    rfl
  | cons c rest ih =>
    intro h
    have hc : hex_char_lower c = some c := hex_char_lower_of_lower c (h c (by simp))
    have hr : hex_group rest = some rest := ih (fun x hx => h x (by simp [hx]))
    simp [hex_group, hc, hr]

/-- write_at preserves the length of the buffer. -/
theorem write_at_length : ∀ (g buf : List Nat) (p : Nat),
    (write_at buf p g).length = buf.length := by
  intro g
  induction g with
  | nil =>
    intro buf p
    rfl
  | cons c rest ih =>
    intro buf p
    show (write_at (buf.set p c) (p + 1) rest).length = buf.length
    rw [ih, List.length_set]

/-- getD after List.set at a valid index. -/
theorem list_set_getD : ∀ (l : List Nat) (i a m : Nat), i < l.length →
    (l.set i a).getD m 0 = if i = m then a else l.getD m 0 := by
  intro l
  induction l with
  | nil =>
    intro i a m h
    simp at h
  | cons x xs ih =>
    intro i a m h
    cases i with
    | zero =>
      cases m with
      | zero => simp
      | succ m0 => simp
    | succ i0 =>
      cases m with
      | zero => simp
      | succ m0 =>
        show (xs.set i0 a).getD m0 0 = _
        rw [ih i0 a m0 (by simpa using h)]
        by_cases he : i0 = m0
        · rw [if_pos he, if_pos (by omega)]
        · rw [if_neg he, if_neg (by omega)]
          simp

/-- getD after write_at: positions inside the written window read from g,
others from the original buffer. -/
theorem write_at_getD : ∀ (g buf : List Nat) (p m : Nat), p + g.length ≤ buf.length →
    (write_at buf p g).getD m 0 =
      if p ≤ m ∧ m < p + g.length then g.getD (m - p) 0 else buf.getD m 0 := by
  intro g
  induction g with
  | nil =>
    intro buf p m h
    show buf.getD m 0 = _
    rw [if_neg (by simp)]
  | cons c rest ih =>
    intro buf p m h
    have hlen : p < buf.length := by
      simp only [List.length_cons] at h
      omega
    show (write_at (buf.set p c) (p + 1) rest).getD m 0 = _
    rw [ih (buf.set p c) (p + 1) m (by rw [List.length_set]; simp only [List.length_cons] at h; omega)]
    by_cases h1 : p + 1 ≤ m ∧ m < p + 1 + rest.length
    · rw [if_pos h1, if_pos (by simp only [List.length_cons]; omega)]
      have hm : m - p = (m - (p + 1)) + 1 := by omega
      rw [hm]
      simp
    · rw [if_neg h1, list_set_getD buf p c m hlen]
      by_cases h2 : p = m
      · rw [if_pos h2, if_pos (by simp only [List.length_cons]; omega)]
        have hm : m - p = 0 := by omega
        rw [hm]
        simp
      · rw [if_neg h2, if_neg (by simp only [List.length_cons]; omega)]

/-- Lists of equal length with equal getD at every index are equal. -/
theorem list_eq_of_getD : ∀ (a b : List Nat), a.length = b.length →
    (∀ i, i < a.length → a.getD i 0 = b.getD i 0) → a = b := by
  intro a
  induction a with
  | nil =>
    intro b h _
    symm
    exact List.length_eq_zero.mp h.symm
  | cons x xs ih =>
    intro b h hp
    cases b with
    | nil => simp at h
    | cons y ys =>
      have h0 := hp 0 (by simp)
      simp only [List.getD_cons_zero] at h0
      have ht : xs = ys :=
        ih ys (by simpa using h) (fun i hi => by simpa using hp (i + 1) (by simpa using hi))
      rw [h0, ht]

/-- getD past the end of the list yields the default. -/
theorem getD_of_ge_length : ∀ (s : List Nat) (k : Nat), s.length ≤ k → s.getD k 0 = 0 := by
  intro s
  induction s with
  | nil =>
    intro k _
    simp
  | cons x xs ih =>
    intro k h
    cases k with
    | zero => simp at h
    | succ k0 =>
      show xs.getD k0 0 = 0
      exact ih k0 (by simpa using h)

/-- Left loop analysis for the double-colon rejection: starting from a state
whose scanned prefix contains no double colon, the left loop either rejects,
or exits at a double colon (leaving start just past its first colon, on a
colon character, with fewer than 8 segments), or exits by exhausting the
segments or the region with still no double colon below start. -/
theorem ipv6_left_reject_cases (s : List Nat) (e start0 : Nat)
    (Hcol : ∀ k, e ≤ k → s.getD k 0 ≠ 58) :
    ∀ fuel start segs buf,
      fuel + segs = 8 →
      start0 ≤ start →
      (segs = 0 → start = start0) →
      (∀ k, start0 ≤ k → k + 2 ≤ start → ¬ (s.getD k 0 = 58 ∧ s.getD (k + 1) 0 = 58)) →
      ipv6_left_loop s e fuel start segs buf = none ∨
      (∃ start2 segs2 buf2,
        ipv6_left_loop s e fuel start segs buf = some (start2, segs2, buf2) ∧
        (∀ k, start0 ≤ k → k + 2 ≤ start2 → ¬ (s.getD k 0 = 58 ∧ s.getD (k + 1) 0 = 58)) ∧
        ((s.getD start2 0 = 58 ∧ segs2 < 8) ∨ (segs2 = 8 ∨ e ≤ start2))) := by
  intro fuel
  induction fuel with
  | zero =>
    intro start segs buf hf hs0 _ hinv
    right
    exact ⟨start, segs, buf, rfl, hinv, Or.inr (Or.inl (by omega))⟩
  | succ n ih =>
    intro start segs buf hf hs0 hseg0 hinv
    simp only [ipv6_left_loop]
    by_cases he : e ≤ start
    · rw [if_pos he]
      right
      exact ⟨start, segs, buf, rfl, hinv, Or.inr (Or.inr he)⟩
    · rw [if_neg he]
      have hmin : ∀ k, start ≤ k → k < (find_char s 58 start).getD e → s.getD k 0 ≠ 58 := by
        rcases hfind : find_char s 58 start with _ | p
        · intro k hk1 hk2
          simp only [Option.getD_none] at hk2
          by_cases hkl : k < s.length
          · exact find_char_none s 58 start hfind k hk1 hkl
          · rw [getD_of_ge_length s k (by omega)]
            omega
        · intro k hk1 hk2
          simp only [Option.getD_some] at hk2
          exact (find_char_some s 58 start p hfind).2.2.2 k hk1 hk2
      have hposle : (find_char s 58 start).getD e ≤ e := by
        rcases hfind : find_char s 58 start with _ | p
        · simp
        · simp only [Option.getD_some]
          obtain ⟨_, hpl, hpc, _⟩ := find_char_some s 58 start p hfind
          by_contra hcon
          exact Hcol p (by omega) hpc
      have hposge : start ≤ (find_char s 58 start).getD e := by
        rcases hfind : find_char s 58 start with _ | p
        · simp only [Option.getD_none]
          omega
        · simp only [Option.getD_some]
          exact (find_char_some s 58 start p hfind).1
      by_cases hps : (find_char s 58 start).getD e = start
      · rw [if_pos hps]
        have hsc : s.getD start 0 = 58 := by
          rcases hfind : find_char s 58 start with _ | p
          · rw [hfind] at hps
            simp only [Option.getD_none] at hps
            omega
          · rw [hfind] at hps
            simp only [Option.getD_some] at hps
            rw [← hps]
            exact (find_char_some s 58 start p hfind).2.2.1
        by_cases hz : segs = 0
        · rw [if_pos hz]
          by_cases hnext : s.getD (start + 1) 0 = 58
          · rw [if_pos hnext]
            right
            refine ⟨start + 1, segs, buf, by rw [hps], ?_, ?_⟩
            · intro k hk1 hk2
              have hst : start = start0 := hseg0 hz
              omega
            · exact Or.inl ⟨hnext, by omega⟩
          · rw [if_neg hnext]
            left
            rfl
        · rw [if_neg hz]
          right
          refine ⟨start, segs, buf, by rw [hps], hinv, ?_⟩
          exact Or.inl ⟨hsc, by omega⟩
      · rw [if_neg hps]
        set pos := (find_char s 58 start).getD e with hposdef
        by_cases hlen4 : 4 < pos - start
        · rw [if_pos hlen4]
          left
          rfl
        · rw [if_neg hlen4]
          rcases hhex : hex_group ((s.drop start).take (pos - start)) with _ | g
          · left
            rfl
          · have hinv2 : ∀ k, start0 ≤ k → k + 2 ≤ pos + 1 →
                ¬ (s.getD k 0 = 58 ∧ s.getD (k + 1) 0 = 58) := by
              intro k hk1 hk2
              by_cases hko : k + 2 ≤ start
              · exact hinv k hk1 hko
              · intro ⟨hka, hkb⟩
                by_cases hkp : k + 1 < pos
                · exact hmin (k + 1) (by omega) hkp hkb
                · have hkeq : k + 1 = pos := by omega
                  have hklt : k < pos := by omega
                  have hkge : start ≤ k := by omega
                  exact hmin k hkge hklt hka
            exact ih (pos + 1) (segs + 1) (write_at buf (5 * segs + (4 - (pos - start))) g)
              (by omega) (by omega) (by omega) hinv2

/-- Right loop analysis for the double-colon rejection: when a double colon
lies at or after start and strictly inside the remaining region (or exactly
at its end with a segment already parsed), the right loop rejects or exits
with start still strictly below the final end index. -/
theorem ipv6_right_reject (s : List Nat) (left_segs start : Nat)
    (hcs : s.getD start 0 = 58) :
    ∀ fuel e segs buf,
      (∃ j, start ≤ j ∧ s.getD j 0 = 58 ∧ s.getD (j + 1) 0 = 58 ∧
        (j + 1 < e ∨ (j + 1 = e ∧ (0 < segs ∨ 0 < left_segs)))) →
      ipv6_right_loop s left_segs start fuel e segs buf = none ∨
      (∃ eF bufF, ipv6_right_loop s left_segs start fuel e segs buf = some (eF, bufF) ∧
        start < eF) := by
  intro fuel
  induction fuel with
  | zero =>
    intro e segs buf hj
    obtain ⟨j, hj1, _, _, hj4⟩ := hj
    right
    refine ⟨e, buf, rfl, ?_⟩
    rcases hj4 with h | ⟨h, _⟩ <;> omega
  | succ n ih =>
    intro e segs buf hj
    obtain ⟨j, hj1, hj2, hj3, hj4⟩ := hj
    have hse : start < e := by
      rcases hj4 with h | ⟨h, _⟩ <;> omega
    obtain ⟨p, hp, hqp⟩ := rfind_char_ge s 58 (e - 1) start (by omega) hcs
    simp only [ipv6_right_loop, hp]
    rw [if_neg (by omega)]
    obtain ⟨hple, hpc, hpmax⟩ := rfind_char_some s 58 (e - 1) p hp
    rcases hj4 with hjin | ⟨hjend, hjseg⟩
    · -- j + 1 < e, so the colon at j + 1 forces p ≥ j + 1
      have hpj : j + 1 ≤ p := by
        by_contra hcon
        exact hpmax (j + 1) (by omega) (by omega) hj3
      by_cases hp0 : e - 1 - p = 0
      · rw [if_pos hp0]
        by_cases hz : left_segs ≠ 0 ∨ segs ≠ 0
        · rw [if_pos hz]
          left
          rfl
        · rw [if_neg hz]
          right
          exact ⟨e - 1, buf, rfl, by omega⟩
      · rw [if_neg hp0]
        by_cases hlen4 : 4 < e - 1 - p
        · rw [if_pos hlen4]
          left
          rfl
        · rw [if_neg hlen4]
          rcases hhex : hex_group ((s.drop (p + 1)).take (e - 1 - p)) with _ | g
          · left
            rfl
          · apply ih p (segs + 1) (write_at buf (5 * (8 - segs) - 1 - (e - 1 - p)) g)
            by_cases hpj2 : j + 1 < p
            · exact ⟨j, hj1, hj2, hj3, Or.inl hpj2⟩
            · exact ⟨j, hj1, hj2, hj3, Or.inr ⟨by omega, Or.inl (by omega)⟩⟩
    · -- j + 1 = e: p lands exactly on the colon at j = e - 1
      have hpj : p = e - 1 := by
        by_contra hcon
        exact hpmax (e - 1) (by omega) (le_refl _) (by rw [show e - 1 = j from by omega]; exact hj2)
      rw [if_pos (by omega)]
      rw [if_pos ?_]
      · left
        rfl
      · rcases hjseg with h | h
        · exact Or.inr (by omega)
        · exact Or.inl (by omega)

/-- Core rejection: two double colons inside the parsed region make ipv6_core
reject. -/
theorem ipv6_core_two_dc (s : List Nat) (start0 e : Nat)
    (Hcol : ∀ k, e ≤ k → s.getD k 0 ≠ 58)
    (i j : Nat) (hij : i < j) (hi0 : start0 ≤ i)
    (hic : s.getD i 0 = 58) (hic2 : s.getD (i + 1) 0 = 58)
    (hjc : s.getD j 0 = 58) (hjc2 : s.getD (j + 1) 0 = 58)
    (hje : j + 1 < e) :
    ipv6_core s start0 e = [] := by
  unfold ipv6_core
  rcases ipv6_left_reject_cases s e start0 Hcol 8 start0 0 ipv6_template rfl (le_refl _)
      (fun _ => rfl) (by intro k h1 h2 _; omega) with
    hnone | ⟨start2, segs2, buf2, heq, hinv2, hbr⟩
  · rw [hnone]
  · simp only [heq]
    have hocc : ∃ q, start2 ≤ q ∧ s.getD q 0 = 58 ∧ s.getD (q + 1) 0 = 58 ∧ q + 1 < e := by
      by_cases hi2 : start2 ≤ i
      · exact ⟨i, hi2, hic, hic2, by omega⟩
      · have hi3 : ¬ (i + 2 ≤ start2) := fun hcon => hinv2 i hi0 hcon ⟨hic, hic2⟩
        exact ⟨j, by omega, hjc, hjc2, hje⟩
    obtain ⟨q, hq1, hq2, hq3, hq4⟩ := hocc
    rcases hbr with ⟨hc58, hseglt⟩ | hright
    · rcases ipv6_right_reject s segs2 start2 hc58 (8 - segs2) e 0 buf2
          ⟨q, hq1, hq2, hq3, Or.inl hq4⟩ with hrn | ⟨eF, bufF, hreq, hlt⟩
      · simp only [hrn]
      · simp only [hreq]
        rw [if_pos hlt]
    · have hstlt : start2 < e := by omega
      rcases hright with h8 | hle2
      · subst h8
        have hrl : ipv6_right_loop s 8 start2 (8 - 8) e 0 buf2 = some (e, buf2) := rfl
        simp only [hrl]
        rw [if_pos hstlt]
      · omega

/-- Rejection of inputs containing "::" twice: in both the bracketed and the
unbracketed form, the canonicalizer returns the empty string. -/
theorem ipv6_two_dc_rejected (s : List Nat) (h : contains_two_double_colons s) :
    do_get_ipv6_long_form s = [] := by
  obtain ⟨i, j, hij, ⟨hil, hic, hic2⟩, ⟨hjl, hjc, hjc2⟩⟩ := h
  unfold do_get_ipv6_long_form
  by_cases hbr : s ≠ [] ∧ s.getD 0 0 = 91
  · rw [if_pos hbr]
    by_cases hlast : s.getD (s.length - 1) 0 ≠ 93
    · rw [if_pos hlast]
    · rw [if_neg hlast]
      push_neg at hlast
      by_cases hlen2 : s.length - 2 < 2 ∨ 39 < s.length - 2
      · rw [if_pos hlen2]
      · rw [if_neg hlen2]
        have hi1 : 1 ≤ i := by
          rcases Nat.eq_zero_or_pos i with h0 | h0
          · rw [h0] at hic
            rw [hbr.2] at hic
            omega
          · omega
        have hjlast : j + 1 ≠ s.length - 1 := by
          intro hcon
          rw [hcon] at hjc2
          rw [hlast] at hjc2
          omega
        apply ipv6_core_two_dc s 1 (s.length - 1) _ i j hij hi1 hic hic2 hjc hjc2 (by omega)
        intro k hk
        by_cases hklen : k < s.length
        · have hk1 : k = s.length - 1 := by omega
          rw [hk1, hlast]
          omega
        · rw [getD_of_ge_length s k (by omega)]
          omega
  · rw [if_neg hbr]
    by_cases hlen : s.length < 2 ∨ 39 < s.length
    · rw [if_pos hlen]
    · rw [if_neg hlen]
      apply ipv6_core_two_dc s 0 s.length _ i j hij (by omega) hic hic2 hjc hjc2 (by omega)
      intro k hk
      rw [getD_of_ge_length s k hk]
      omega

/-- Characters of the template: a colon at positions congruent to 4 mod 5,
the digit 0 elsewhere. -/
theorem ipv6_template_getD : ∀ m, m < 39 →
    ipv6_template.getD m 0 = if m % 5 = 4 then 58 else 48 := by decide

/-- getD into take-of-drop reads the underlying list at the shifted index. -/
theorem getD_take_drop (s : List Nat) (a n i : Nat) (hi : i < n) :
    ((s.drop a).take n).getD i 0 = s.getD (a + i) 0 := by
  rw [List.getD_eq_getElem?_getD, List.getD_eq_getElem?_getD,
    List.getElem?_take_of_lt hi, List.getElem?_drop]

/-- Left loop on a long-form address: each iteration consumes one 4-digit
group and its separator, copying the digits verbatim, and after 8 groups the
buffer equals the input. -/
theorem ipv6_left_longform_aux (s : List Nat) (hlen : s.length = 39)
    (hall : ∀ i, i < 39 →
      (i % 5 = 4 → s.getD i 0 = 58) ∧ (i % 5 ≠ 4 → is_lower_hex (s.getD i 0))) :
    ∀ fuel segs buf, fuel + segs = 8 → buf.length = 39 →
      (∀ m, m < 39 → (m < 5 * segs → buf.getD m 0 = s.getD m 0) ∧
                      (5 * segs ≤ m → buf.getD m 0 = ipv6_template.getD m 0)) →
      ipv6_left_loop s 39 fuel (5 * segs) segs buf = some (40, 8, s) := by
  intro fuel
  induction fuel with
  | zero =>
    intro segs buf hf hbl hb
    have hseg : segs = 8 := by omega
    subst hseg
    have hbs : buf = s := by
      apply list_eq_of_getD buf s (by rw [hbl, hlen])
      intro m hm
      rw [hbl] at hm
      exact (hb m hm).1 (by omega)
    rw [hbs]
    rfl
  | succ n ih =>
    intro segs buf hf hbl hb
    have hseg7 : segs ≤ 7 := by omega
    simp only [ipv6_left_loop]
    rw [if_neg (by omega : ¬ 39 ≤ 5 * segs)]
    have hmin : ∀ k, 5 * segs ≤ k → k < 5 * segs + 4 → s.getD k 0 ≠ 58 := by
      intro k hk1 hk2
      exact lower_hex_ne_colon _ ((hall k (by omega)).2 (by omega))
    have hpos : (find_char s 58 (5 * segs)).getD 39 = 5 * segs + 4 := by
      by_cases h6 : segs ≤ 6
      · rw [find_char_eq_some s 58 (5 * segs) (5 * segs + 4) (by omega) (by omega)
          ((hall (5 * segs + 4) (by omega)).1 (by omega)) hmin]
        rfl
      · have hseg : segs = 7 := by omega
        subst hseg
        rw [find_char_eq_none s 58 (5 * 7) (by
          intro k hk1 hk2
          rw [hlen] at hk2
          exact hmin k hk1 (by omega))]
        rfl
    rw [hpos, if_neg (by omega : ¬ 5 * segs + 4 = 5 * segs),
      if_neg (by omega : ¬ 4 < 5 * segs + 4 - 5 * segs)]
    rw [show 5 * segs + 4 - 5 * segs = 4 from by omega]
    have hlen4g : ((s.drop (5 * segs)).take 4).length = 4 := by
      rw [List.length_take, List.length_drop, hlen]
      omega
    have hgroup : hex_group ((s.drop (5 * segs)).take 4) =
        some ((s.drop (5 * segs)).take 4) := by
      apply hex_group_self
      intro x hx
      obtain ⟨idx, hidx, hval⟩ := List.mem_iff_getElem.mp hx
      have hidx4 : idx < 4 := by
        rw [hlen4g] at hidx
        exact hidx
      have hxval : x = s.getD (5 * segs + idx) 0 := by
        rw [← hval, ← List.getD_eq_getElem _ 0 hidx]
        exact getD_take_drop s (5 * segs) 4 idx hidx4
      rw [hxval]
      exact (hall (5 * segs + idx) (by omega)).2 (by omega)
    simp only [hgroup]
    rw [show 5 * segs + (4 - 4) = 5 * segs from by omega,
      show 5 * segs + 4 + 1 = 5 * (segs + 1) from by ring]
    apply ih (segs + 1) _ (by omega) (by rw [write_at_length, hbl])
    intro m hm
    have hwb : 5 * segs + ((s.drop (5 * segs)).take 4).length ≤ buf.length := by
      rw [hlen4g, hbl]
      omega
    constructor
    · intro hmlt
      rw [write_at_getD _ buf (5 * segs) m hwb]
      by_cases hw : 5 * segs ≤ m ∧ m < 5 * segs + ((s.drop (5 * segs)).take 4).length
      · rw [if_pos hw]
        rw [getD_take_drop s (5 * segs) 4 (m - 5 * segs) (by rw [hlen4g] at hw; omega)]
        rw [show 5 * segs + (m - 5 * segs) = m from by omega]
      · rw [if_neg hw]
        rw [hlen4g] at hw
        by_cases hm5 : m < 5 * segs
        · exact (hb m hm).1 hm5
        · have hm4 : m = 5 * segs + 4 := by omega
          rw [(hb m hm).2 (by omega)]
          have h58 : s.getD m 0 = 58 := (hall m hm).1 (by omega)
          have ht58 : ipv6_template.getD m 0 = 58 := by
            have hgt := ipv6_template_getD m hm
            rw [if_pos (by omega)] at hgt
            exact hgt
          rw [ht58, h58]
    · intro hge
      rw [write_at_getD _ buf (5 * segs) m hwb]
      rw [if_neg (by rw [hlen4g]; omega)]
      exact (hb m hm).2 (by omega)

/-- Idempotence over long-form inputs: the canonicalizer returns a
39-character long-form address unchanged. -/
theorem ipv6_longform_id (s : List Nat) (h : is_long_form s) :
    do_get_ipv6_long_form s = s := by
  obtain ⟨hlen, hall⟩ := h
  unfold do_get_ipv6_long_form
  have h0hex : is_lower_hex (s.getD 0 0) := (hall 0 (by omega)).2 (by omega)
  have hnot : ¬ (s ≠ [] ∧ s.getD 0 0 = 91) := by
    intro hand
    rw [hand.2] at h0hex
    unfold is_lower_hex at h0hex
    omega
  rw [if_neg hnot, if_neg (by omega : ¬ (s.length < 2 ∨ 39 < s.length)), hlen]
  unfold ipv6_core
  have hleft := ipv6_left_longform_aux s hlen hall 8 0 ipv6_template rfl rfl
    (fun m hm => ⟨fun hmlt => absurd hmlt (by omega), fun _ => rfl⟩)
  rw [show 5 * 0 = 0 from rfl] at hleft
  simp only [hleft]
  have hrl : ipv6_right_loop s 8 40 (8 - 8) 39 0 s = some (39, s) := rfl
  simp only [hrl]
  rw [if_neg (by omega : ¬ (40 < 39))]

/-- Length rejection: an over-long input is rejected unless it is a bracketed
address; anything longer than 41 characters is always rejected. -/
theorem ipv6_too_long (s : List Nat) :
    (39 < s.length → ¬ (s.getD 0 0 = 91 ∧ s.getD (s.length - 1) 0 = 93) →
      do_get_ipv6_long_form s = []) ∧
    (41 < s.length → do_get_ipv6_long_form s = []) := by
  constructor
  · intro hl hnb
    unfold do_get_ipv6_long_form
    by_cases hbr : s ≠ [] ∧ s.getD 0 0 = 91
    · rw [if_pos hbr]
      have hlast : s.getD (s.length - 1) 0 ≠ 93 := fun hc => hnb ⟨hbr.2, hc⟩
      rw [if_pos hlast]
    · rw [if_neg hbr, if_pos (Or.inr hl)]
  · intro hl
    unfold do_get_ipv6_long_form
    by_cases hbr : s ≠ [] ∧ s.getD 0 0 = 91
    · rw [if_pos hbr]
      by_cases hlast : s.getD (s.length - 1) 0 ≠ 93
      · rw [if_pos hlast]
      · rw [if_neg hlast, if_pos (Or.inr (by omega))]
    · rw [if_neg hbr, if_pos (Or.inr (by omega))]

/-- C9 amended: do_get_ipv6_long_form is the identity on 39-character
long-form addresses; it rejects (returns the empty string for) every input
containing "::" twice; and it rejects every input longer than 39 characters
that is not of the bracketed form, as well as every input longer than 41
characters (a bracketed long-form address of 41 characters is accepted, its
brackets being stripped before the length check). -/
theorem C9_ipv6_long_form :
    (∀ s, is_long_form s → do_get_ipv6_long_form s = s) ∧
    (∀ s, contains_two_double_colons s → do_get_ipv6_long_form s = []) ∧
    (∀ s, 39 < s.length → ¬ (s.getD 0 0 = 91 ∧ s.getD (s.length - 1) 0 = 93) →
      do_get_ipv6_long_form s = []) ∧
    (∀ s, 41 < s.length → do_get_ipv6_long_form s = []) :=
  ⟨ipv6_longform_id, ipv6_two_dc_rejected,
    fun s => (ipv6_too_long s).1, fun s => (ipv6_too_long s).2⟩

/-- C9 witness: the all-zero long form is returned unchanged; the input
"::1::" (code points) contains "::" twice and is rejected; a 42-character
input is rejected. -/
theorem C9_ipv6_long_form_witness :
    is_long_form ipv6_template ∧
    do_get_ipv6_long_form ipv6_template = ipv6_template ∧
    contains_two_double_colons [58, 58, 49, 58, 58] ∧
    do_get_ipv6_long_form [58, 58, 49, 58, 58] = [] ∧
    do_get_ipv6_long_form (List.replicate 42 48) = [] := by
  have h1 : is_long_form ipv6_template := by
    constructor
    · rfl
    · decide
  have h2 : contains_two_double_colons [58, 58, 49, 58, 58] := by
    refine ⟨0, 3, by omega, ⟨by decide, by decide, by decide⟩,
      ⟨by decide, by decide, by decide⟩⟩
  exact ⟨h1, C9_ipv6_long_form.1 ipv6_template h1, h2,
    C9_ipv6_long_form.2.1 _ h2,
    C9_ipv6_long_form.2.2.2 (List.replicate 42 48) (by simp)⟩

/-- view_reader state as the spec intends it: the constructor with the
start_offset_ = 0 assignment restored. -/
def mk_view_reader_fixed (data : List Nat) : view_reader_state :=
  { mk_view_reader data with start_offset_ := 0 }

/-- With start_offset_ = 0, the pipeline invariant: having consumed all but r
bytes, with the destination holding the consumed byte sequence, the remaining
pipeline produces exactly the source. -/
theorem pipe_view_fixed_aux (data : List Nat) (cap limit : Nat)
    (hcap : 1 ≤ cap) (hlimit : data.length ≤ limit) (hn : data.length < nosize) :
    ∀ fuel r g, r ≤ data.length → r + 1 ≤ fuel →
      pipe_view_to_buffer cap fuel
        { view_ := data, size_ := data.length, max_size_ := data.length,
          start_offset_ := 0, remaining_ := r, get_buffer_called_ := g,
          error_ := false, eof_ := decide (r = 0) }
        { buffer_ := data.take (data.length - r), size_limit_ := limit,
          error_ := false } = some data := by
  intro fuel
  induction fuel with
  | zero =>
    intro r g hr hf
    omega
  | succ n ih =>
    intro r g hr hf
    by_cases hr0 : r = 0
    · subst hr0
      have hpipe : pipe_view_to_buffer cap (n + 1)
          { view_ := data, size_ := data.length, max_size_ := data.length,
            start_offset_ := 0, remaining_ := 0, get_buffer_called_ := g,
            error_ := false, eof_ := decide (0 = 0) }
          { buffer_ := data.take (data.length - 0), size_limit_ := limit,
            error_ := false } = some (data.take (data.length - 0)) := rfl
      rw [hpipe, Nat.sub_zero, List.take_length]
    · have hget : view_reader_do_get_buffer cap
          { view_ := data, size_ := data.length, max_size_ := data.length,
            start_offset_ := 0, remaining_ := r, get_buffer_called_ := g,
            error_ := false, eof_ := decide (r = 0) } =
          some (aio_result.ok,
            some ((data.drop (data.length - r)).take (if r < cap then r else cap)),
            { view_ := data, size_ := data.length, max_size_ := data.length,
              start_offset_ := 0,
              remaining_ := r - (if r < cap then r else cap),
              get_buffer_called_ := true,
              error_ := false,
              eof_ := decide (r - (if r < cap then r else cap) = 0) }) := by
        unfold view_reader_do_get_buffer
        rw [if_neg (by simp), if_neg (by simp [hr0])]
        have hto : (if r ≠ nosize ∧ r < cap then r else cap) = (if r < cap then r else cap) := by
          by_cases hc : r < cap
          · rw [if_pos ⟨by omega, hc⟩, if_pos hc]
          · rw [if_neg (fun hand => hc hand.2), if_neg hc]
        rw [hto]
        have hidx : (0 + (data.length - r)) % u64 = data.length - r := by
          rw [Nat.zero_add]
          exact Nat.mod_eq_of_lt (by rw [u64_val] at *; rw [nosize_val] at hn; omega)
        rw [hidx]
        rw [if_pos (by
          show data.length - r + (if r < cap then r else cap) ≤ data.length
          by_cases hc : r < cap
          · rw [if_pos hc]; omega
          · rw [if_neg hc]; omega)]
      set t := if r < cap then r else cap with ht
      have ht1 : 1 ≤ t := by
        rw [ht]
        by_cases hc : r < cap
        · rw [if_pos hc]; omega
        · rw [if_neg hc]; omega
      have htr : t ≤ r := by
        rw [ht]
        by_cases hc : r < cap
        · rw [if_pos hc]
        · rw [if_neg hc]; omega
      simp only [pipe_view_to_buffer, hget]
      have hslice : ((data.drop (data.length - r)).take t).length = t := by
        rw [List.length_take, List.length_drop]
        omega
      have hadd : buffer_writer_add_buffer
          { buffer_ := data.take (data.length - r), size_limit_ := limit,
            error_ := false } (some ((data.drop (data.length - r)).take t)) =
          (aio_result.ok,
            { buffer_ := data.take (data.length - r) ++ (data.drop (data.length - r)).take t,
              size_limit_ := limit, error_ := false }) := by
        unfold buffer_writer_add_buffer
        rw [if_neg (by simp)]
        simp only []
        rw [if_neg (by rw [hslice]; omega)]
        rw [if_neg (by
          rw [hslice, List.length_take]
          omega)]
      simp only [hadd]
      have happend : data.take (data.length - r) ++ (data.drop (data.length - r)).take t =
          data.take (data.length - (r - t)) := by
        rw [show data.length - (r - t) = (data.length - r) + t from by omega]
        rw [List.take_add]
      rw [happend]
      exact ih (r - t) true (by omega) (by omega)

/-- With the start_offset_ = 0 assignment restored, the round trip reproduces
every byte sequence (spec round-trip invariant): the destination buffer of a
buffer_writer with a sufficient limit fed from a view_reader over data is
exactly data. -/
theorem view_buffer_round_trip_fixed (data : List Nat) (cap limit : Nat)
    (hcap : 1 ≤ cap) (hlimit : data.length ≤ limit) (hn : data.length < nosize) :
    pipe_view_to_buffer cap (data.length + 1) (mk_view_reader_fixed data)
      { buffer_ := [], size_limit_ := limit, error_ := false } = some data := by
  have h := pipe_view_fixed_aux data cap limit hcap hlimit hn (data.length + 1)
    data.length false (le_refl _) (le_refl _)
  rw [Nat.sub_self, List.take_zero] at h
  have hst : mk_view_reader_fixed data =
      { view_ := data, size_ := data.length, max_size_ := data.length,
        start_offset_ := 0, remaining_ := data.length, get_buffer_called_ := false,
        error_ := false, eof_ := decide (data.length = 0) } := by
    unfold mk_view_reader_fixed mk_view_reader
    rfl
  rw [hst]
  exact h
